import Mathlib

/-!
Verification development for the address quality tracking core
(comms/core/src/net_address/mutliaddresses_with_stats.rs).

The registry type MultiaddressesWithStats is translated directly from the
Rust source.  The record type MultiaddrWithStats lives in a different file
of the repository (multiaddr_with_stats.rs) that is not part of the given
sources, so its fields and operations are modelled from the specification
(sections 3 and 4.1); each such definition says so in its doc comment.

Modelling conventions: multiaddresses are opaque identities compared by
exact value equality and by byte order, so they are modelled as Nat;
timestamps and durations are modelled as Nat; the trust-ranked provenance
set is modelled as Nat with the numeric order as the trust order (larger
means more trusted); calls that read the wall clock take an explicit now
argument; operations that return bool while mutating self are modelled as
functions returning a pair of the bool and the new registry.
-/

namespace Tari

/-- Modelled from the spec: the AddressRecord (MultiaddrWithStats) data
model of section 3, which is not among the given sources.  Fields:
address identity, trust-ranked source, optional timestamps of last
success and last attempt, count of consecutive failures, running latency
mean with its sample count, last failure reason, and the stored start of
the current offline streak (the derived offline_at of the spec). -/
structure MultiaddrWithStats where
  address : Nat
  source : Nat
  last_seen : Option Nat
  last_attempted : Option Nat
  connection_attempts : Nat
  avg_latency : Option Nat
  latency_sample_count : Nat
  last_failure_reason : Option String
  offline_at : Option Nat
deriving DecidableEq

namespace MultiaddrWithStats

/-- Modelled from the spec: new(address, source) constructs a record with
no statistics (all timestamps none, connection_attempts = 0). -/
def new (address : Nat) (source : Nat) : MultiaddrWithStats :=
  { address := address
    source := source
    last_seen := none
    last_attempted := none
    connection_attempts := 0
    avg_latency := none
    latency_sample_count := 0
    last_failure_reason := none
    offline_at := none }

/-- Modelled from the spec: update_source_if_better replaces the stored
provenance only if the new source outranks the current one; never
downgrades. -/
def update_source_if_better (r : MultiaddrWithStats) (source : Nat) : MultiaddrWithStats :=
  { r with source := max r.source source }

/-- Modelled from the spec: update_latency incorporates the sample into
the running mean, new_mean = (old_mean * n + sample) / (n + 1), with n
incremented; counters and timestamps untouched. -/
def update_latency (r : MultiaddrWithStats) (sample : Nat) : MultiaddrWithStats :=
  { r with
    avg_latency := some ((r.avg_latency.getD 0 * r.latency_sample_count + sample) /
      (r.latency_sample_count + 1))
    latency_sample_count := r.latency_sample_count + 1 }

/-- Modelled from the spec: mark_last_seen_now sets last_seen = now,
last_attempted = now, connection_attempts = 0 and clears the offline
marker. -/
def mark_last_seen_now (r : MultiaddrWithStats) (now : Nat) : MultiaddrWithStats :=
  { r with
    last_seen := some now
    last_attempted := some now
    connection_attempts := 0
    offline_at := none }

/-- Modelled from the spec: mark_failed_connection_attempt sets
last_attempted = now, increments connection_attempts, records the reason,
and on the first failure since the last success captures now as the start
of the offline streak. -/
def mark_failed_connection_attempt (r : MultiaddrWithStats) (reason : String) (now : Nat) :
    MultiaddrWithStats :=
  { r with
    last_attempted := some now
    connection_attempts := r.connection_attempts + 1
    last_failure_reason := some reason
    offline_at := if r.connection_attempts = 0 then some now else r.offline_at }

/-- Modelled from the spec: reset_connection_attempts sets
connection_attempts = 0 and clears the offline streak marker without
touching last_seen, last_attempted or latency. -/
def reset_connection_attempts (r : MultiaddrWithStats) : MultiaddrWithStats :=
  { r with
    connection_attempts := 0
    offline_at := none }

/-- Maximum of two optional timestamps, treating none as least; used to
keep the most recent timestamp when merging records. -/
def optMax : Option Nat → Option Nat → Option Nat
  | none, b => b
  | some a, none => some a
  | some a, some b => some (max a b)

/-- Modelled from the spec: merge combines statistics of two records for
the same address conservatively: keep the most recent last_seen and
last_attempted, keep the higher-trust source, take the failure-streak
fields from the record with fewer consecutive failures, and take the
latency statistics from the record with more samples (ties keep self). -/
def merge (r other : MultiaddrWithStats) : MultiaddrWithStats :=
  { address := r.address
    source := max r.source other.source
    last_seen := optMax r.last_seen other.last_seen
    last_attempted := optMax r.last_attempted other.last_attempted
    connection_attempts :=
      if other.connection_attempts < r.connection_attempts then other.connection_attempts
      else r.connection_attempts
    offline_at :=
      if other.connection_attempts < r.connection_attempts then other.offline_at
      else r.offline_at
    last_failure_reason :=
      if other.connection_attempts < r.connection_attempts then other.last_failure_reason
      else r.last_failure_reason
    avg_latency :=
      if r.latency_sample_count < other.latency_sample_count then other.avg_latency
      else r.avg_latency
    latency_sample_count :=
      if r.latency_sample_count < other.latency_sample_count then other.latency_sample_count
      else r.latency_sample_count }

end MultiaddrWithStats

/-- Boolean lexicographic comparison of two quadruples of naturals; the
last component is compared with less-or-equal so that the relation is
total. -/
def natLex4 (a1 a2 a3 a4 b1 b2 b3 b4 : Nat) : Bool :=
  decide (a1 < b1) ||
    (decide (a1 = b1) &&
      (decide (a2 < b2) ||
        (decide (a2 = b2) &&
          (decide (a3 < b3) || (decide (a3 = b3) && decide (a4 ≤ b4))))))

/-- Modelled from the spec: the Ord instance of MultiaddrWithStats
(section 4.1), which is not among the given sources: primary key
ascending connection_attempts, secondary key ascending avg_latency with
an unknown latency ranking worse than any known value, tertiary
deterministic tie-break by address byte order. -/
def MultiaddrWithStats.le (r s : MultiaddrWithStats) : Bool :=
  natLex4 r.connection_attempts (if r.avg_latency.isNone then 1 else 0)
    (r.avg_latency.getD 0) r.address
    s.connection_attempts (if s.avg_latency.isNone then 1 else 0)
    (s.avg_latency.getD 0) s.address

/-- The priority order as a Prop-valued relation. -/
def recordLe (a b : MultiaddrWithStats) : Prop :=
  MultiaddrWithStats.le a b = true

instance : DecidableRel recordLe := fun a b =>
  inferInstanceAs (Decidable (MultiaddrWithStats.le a b = true))

/-- Sorting of the record vector, modelling Vec sort with the record Ord
instance.  Vec sort is a stable sort, and a stable sort with respect to a
total preorder has a unique result, so it is modelled by the stable
insertion sort. -/
def sortAddrs (l : List MultiaddrWithStats) : List MultiaddrWithStats :=
  List.insertionSort recordLe l

/-- Updates the first record in the list whose address equals the given
address, leaving every other record unchanged; models mutation through
the reference returned by Iterator find on a Vec. -/
def updateFirstMatching (a : Nat) (f : MultiaddrWithStats → MultiaddrWithStats) :
    List MultiaddrWithStats → List MultiaddrWithStats
  | [] => []
  | r :: rest =>
    if r.address = a then f r :: rest else r :: updateFirstMatching a f rest

/-- The registry: a set of net addresses with usage statistics for a
single peer (struct MultiaddressesWithStats of the source). -/
structure MultiaddressesWithStats where
  addresses : List MultiaddrWithStats
deriving DecidableEq

namespace MultiaddressesWithStats

/-- Source from_addresses_with_source: pushes one new record per element
of the input list, in order. -/
def from_addresses_with_source (addresses : List Nat) (source : Nat) :
    MultiaddressesWithStats :=
  ⟨addresses.map (fun a => MultiaddrWithStats.new a source)⟩

/-- Source empty constructor. -/
def empty : MultiaddressesWithStats := ⟨[]⟩

/-- Source new: wraps the given record vector without deduplication. -/
def new (addresses : List MultiaddrWithStats) : MultiaddressesWithStats :=
  ⟨addresses⟩

/-- Source From implementation for a record vector; identical to new. -/
def ofVec (addresses : List MultiaddrWithStats) : MultiaddressesWithStats :=
  ⟨addresses⟩

/-- Source best: the first record of the vector, if any. -/
def best (m : MultiaddressesWithStats) : Option MultiaddrWithStats :=
  m.addresses.head?

/-- Source last_seen: the latest last_seen across all records, written as
the fold the source loop performs. -/
def last_seen (m : MultiaddressesWithStats) : Option Nat :=
  m.addresses.foldl
    (fun acc r =>
      match r.last_seen, acc with
      | none, _ => acc
      | some t, none => some t
      | some t, some l => if l < t then some t else some l)
    none

/-- Source last_attempted: the latest last_attempted across all records. -/
def last_attempted (m : MultiaddressesWithStats) : Option Nat :=
  m.addresses.foldl
    (fun acc r =>
      match r.last_attempted, acc with
      | none, _ => acc
      | some t, none => some t
      | some t, some l => if l < t then some t else some l)
    none

/-- Loop body of source offline_at: returns none as soon as a record with
no offline timestamp is seen, otherwise accumulates the earliest offline
timestamp. -/
def offlineAtAux : List MultiaddrWithStats → Option Nat → Option Nat
  | [], acc => acc
  | r :: rest, acc =>
    match r.offline_at with
    | none => none
    | some t =>
      offlineAtAux rest
        (match acc with
         | none => some t
         | some e => if t < e then some t else some e)

/-- Source offline_at: earliest per-record offline timestamp provided
every record has one, none otherwise (also none when empty). -/
def offline_at (m : MultiaddressesWithStats) : Option Nat :=
  offlineAtAux m.addresses none

/-- Source contains: whether some record has the given address. -/
def contains (m : MultiaddressesWithStats) (a : Nat) : Bool :=
  m.addresses.any (fun x => x.address == a)

/-- Source add_address: if the address already exists, upgrade the
provenance of the first matching record; otherwise push a fresh record
and sort. -/
def add_address (m : MultiaddressesWithStats) (a : Nat) (source : Nat) :
    MultiaddressesWithStats :=
  if m.addresses.any (fun x => x.address == a) then
    ⟨updateFirstMatching a (fun r => r.update_source_if_better source) m.addresses⟩
  else
    ⟨sortAddrs (m.addresses ++ [MultiaddrWithStats.new a source])⟩

/-- First loop of source update_addresses: for each incoming address,
upgrade the provenance of the first matching record, if any. -/
def upgradeExisting (addrs : List Nat) (source : Nat)
    (recs : List MultiaddrWithStats) : List MultiaddrWithStats :=
  addrs.foldl
    (fun recs a =>
      updateFirstMatching a (fun r => r.update_source_if_better source) recs)
    recs

/-- Source update_addresses: upgrade provenance of records still present,
then append a fresh record for every incoming address not yet in the
registry, then sort. -/
def update_addresses (m : MultiaddressesWithStats) (addrs : List Nat) (source : Nat) :
    MultiaddressesWithStats :=
  let recs1 := upgradeExisting addrs source m.addresses
  let to_add := addrs.filter (fun a => !(recs1.any (fun r => r.address == a)))
  ⟨sortAddrs (recs1 ++ to_add.map (fun a => MultiaddrWithStats.new a source))⟩

/-- Source iter: the addresses in current (priority) order. -/
def iter (m : MultiaddressesWithStats) : List Nat :=
  m.addresses.map (fun r => r.address)

/-- Source to_lexicographically_sorted: the addresses sorted by raw byte
order, independent of priority. -/
def to_lexicographically_sorted (m : MultiaddressesWithStats) : List Nat :=
  List.insertionSort (fun a b => a ≤ b) (m.addresses.map (fun r => r.address))

/-- Source merge: for every record of other, merge into the first
matching existing record when present, else append a clone; no sort. -/
def merge (m other : MultiaddressesWithStats) : MultiaddressesWithStats :=
  ⟨other.addresses.foldl
    (fun recs addr =>
      if recs.any (fun x => x.address == addr.address) then
        updateFirstMatching addr.address (fun e => e.merge addr) recs
      else
        recs ++ [addr])
    m.addresses⟩

/-- Source update_latency: find the record by address; when found, update
its running latency mean, sort, and return true, else return false
leaving the registry unchanged. -/
def update_latency (m : MultiaddressesWithStats) (a : Nat) (sample : Nat) :
    Bool × MultiaddressesWithStats :=
  match m.addresses.find? (fun x => x.address == a) with
  | some _ =>
    (true, ⟨sortAddrs (updateFirstMatching a (fun r => r.update_latency sample) m.addresses)⟩)
  | none => (false, m)

/-- Source mark_last_seen_now: find the record by address; when found,
mark it seen now, set its last_attempted to now, sort, and return true,
else return false leaving the registry unchanged. -/
def mark_last_seen_now (m : MultiaddressesWithStats) (a : Nat) (now : Nat) :
    Bool × MultiaddressesWithStats :=
  match m.addresses.find? (fun x => x.address == a) with
  | some _ =>
    (true,
      ⟨sortAddrs (updateFirstMatching a
        (fun r => { r.mark_last_seen_now now with last_attempted := some now })
        m.addresses)⟩)
  | none => (false, m)

/-- Source mark_failed_connection_attempt: find the record by address;
when found, record the failure, set its last_attempted to now, sort, and
return true, else return false leaving the registry unchanged. -/
def mark_failed_connection_attempt (m : MultiaddressesWithStats) (a : Nat)
    (reason : String) (now : Nat) : Bool × MultiaddressesWithStats :=
  match m.addresses.find? (fun x => x.address == a) with
  | some _ =>
    (true,
      ⟨sortAddrs (updateFirstMatching a
        (fun r => { r.mark_failed_connection_attempt reason now with last_attempted := some now })
        m.addresses)⟩)
  | none => (false, m)

/-- Source reset_connection_attempts: reset every record and sort. -/
def reset_connection_attempts (m : MultiaddressesWithStats) : MultiaddressesWithStats :=
  ⟨sortAddrs (m.addresses.map MultiaddrWithStats.reset_connection_attempts)⟩

/-- Source len: number of records. -/
def len (m : MultiaddressesWithStats) : Nat :=
  m.addresses.length

/-- Source is_empty. -/
def is_empty (m : MultiaddressesWithStats) : Bool :=
  m.addresses.isEmpty

/-- Total embedding of the Index implementation, which panics for an
index at or beyond len: the partial lookup is the Option-returning list
access. -/
def index (m : MultiaddressesWithStats) (i : Nat) : Option MultiaddrWithStats :=
  m.addresses[i]?

end MultiaddressesWithStats

/-- Records sorted by the priority order (the record Ord instance). -/
def sortedByPriority (l : List MultiaddrWithStats) : Prop :=
  l.Pairwise recordLe

instance (l : List MultiaddrWithStats) : Decidable (sortedByPriority l) :=
  inferInstanceAs (Decidable (List.Pairwise recordLe l))

/-- Registry records pairwise distinct by address (the data-model
invariant of the spec). -/
def uniqueByAddress (l : List MultiaddrWithStats) : Prop :=
  (l.map (fun r => r.address)).Nodup

instance (l : List MultiaddrWithStats) : Decidable (uniqueByAddress l) := by
  unfold uniqueByAddress
  infer_instance

/-- Two records agree on everything except possibly the provenance tag. -/
def statsEq (r s : MultiaddrWithStats) : Prop :=
  r.address = s.address ∧ r.last_seen = s.last_seen ∧
  r.last_attempted = s.last_attempted ∧
  r.connection_attempts = s.connection_attempts ∧
  r.avg_latency = s.avg_latency ∧
  r.latency_sample_count = s.latency_sample_count ∧
  r.last_failure_reason = s.last_failure_reason ∧
  r.offline_at = s.offline_at

instance (r s : MultiaddrWithStats) : Decidable (statsEq r s) := by
  unfold statsEq
  infer_instance

/-! Sample data for concrete witnesses and counterexamples. -/

/-- Sample record currently in a failure streak. -/
def failedRec : MultiaddrWithStats :=
  { MultiaddrWithStats.new 10 0 with
    connection_attempts := 1
    offline_at := some 5
    last_attempted := some 5
    last_failure_reason := some "err" }

/-- Second sample record in a longer failure streak. -/
def failedRec2 : MultiaddrWithStats :=
  { MultiaddrWithStats.new 30 0 with
    connection_attempts := 2
    offline_at := some 3
    last_attempted := some 7
    last_failure_reason := some "err" }

/-- Sample record with no statistics. -/
def freshRec : MultiaddrWithStats := MultiaddrWithStats.new 20 0

/-- Sample record sharing the address of failedRec but with different
statistics, for the duplicate-address scenarios. -/
def dupRec : MultiaddrWithStats :=
  { MultiaddrWithStats.new 10 0 with
    avg_latency := some 50
    latency_sample_count := 1 }

/-! Helper lemmas about the priority comparison. -/

theorem record_le_trans : ∀ a b c : MultiaddrWithStats,
    MultiaddrWithStats.le a b → MultiaddrWithStats.le b c → MultiaddrWithStats.le a c := by
  intro a b c h1 h2
  simp only [MultiaddrWithStats.le, natLex4, Bool.or_eq_true, Bool.and_eq_true,
    decide_eq_true_eq] at h1 h2 ⊢
  omega

theorem record_le_total : ∀ a b : MultiaddrWithStats,
    MultiaddrWithStats.le a b || MultiaddrWithStats.le b a := by
  intro a b
  simp only [MultiaddrWithStats.le, natLex4, Bool.or_eq_true, Bool.and_eq_true,
    decide_eq_true_eq]
  omega

theorem record_le_refl (a : MultiaddrWithStats) : MultiaddrWithStats.le a a = true := by
  simp [MultiaddrWithStats.le, natLex4]

instance : IsTrans MultiaddrWithStats recordLe :=
  ⟨record_le_trans⟩

instance : IsTotal MultiaddrWithStats recordLe :=
  ⟨fun a b => by
    have h := record_le_total a b
    simp only [Bool.or_eq_true] at h
    exact h⟩

theorem sortAddrs_perm (l : List MultiaddrWithStats) : List.Perm (sortAddrs l) l :=
  List.perm_insertionSort recordLe l

theorem sortAddrs_sorted (l : List MultiaddrWithStats) : sortedByPriority (sortAddrs l) :=
  List.sorted_insertionSort recordLe l

/-! Helper lemmas about updateFirstMatching. -/

theorem updateFirstMatching_of_not_any (a : Nat)
    (f : MultiaddrWithStats → MultiaddrWithStats) :
    ∀ l : List MultiaddrWithStats, l.any (fun x => x.address == a) = false →
      updateFirstMatching a f l = l := by
  intro l h
  induction l with
  | nil => rfl
  | cons r rest ih =>
    simp only [List.any_cons, Bool.or_eq_false_iff, beq_eq_false_iff_ne] at h
    simp only [updateFirstMatching, if_neg h.1, ih h.2]

theorem updateFirstMatching_append (a : Nat)
    (f : MultiaddrWithStats → MultiaddrWithStats) :
    ∀ (pre : List MultiaddrWithStats) (r : MultiaddrWithStats)
      (post : List MultiaddrWithStats),
      (∀ x ∈ pre, x.address ≠ a) → r.address = a →
      updateFirstMatching a f (pre ++ r :: post) = pre ++ f r :: post := by
  intro pre
  induction pre with
  | nil =>
    intro r post _ hr
    simp [updateFirstMatching, hr]
  | cons x rest ih =>
    intro r post hpre hr
    have hx : x.address ≠ a := hpre x (by simp)
    simp only [List.cons_append, updateFirstMatching, if_neg hx]
    exact congrArg (List.cons x) (ih r post (fun y hy => hpre y (by simp [hy])) hr)

theorem any_address_decomp (a : Nat) :
    ∀ l : List MultiaddrWithStats, l.any (fun x => x.address == a) = true →
      ∃ pre r post, l = pre ++ r :: post ∧ (∀ x ∈ pre, x.address ≠ a) ∧ r.address = a := by
  intro l h
  induction l with
  | nil => simp at h
  | cons r rest ih =>
    by_cases hr : r.address = a
    · exact ⟨[], r, rest, by simp, by simp, hr⟩
    · simp only [List.any_cons, Bool.or_eq_true, beq_iff_eq] at h
      rcases h with h | h
      · exact absurd h hr
      · rcases ih h with ⟨pre, s, post, hl, hpre, hs⟩
        exact ⟨r :: pre, s, post, by simp [hl], by
          intro x hx
          rcases List.mem_cons.mp hx with rfl | hx
          · exact hr
          · exact hpre x hx, hs⟩

theorem map_address_updateFirstMatching (a : Nat)
    (f : MultiaddrWithStats → MultiaddrWithStats)
    (hf : ∀ r, (f r).address = r.address) :
    ∀ l : List MultiaddrWithStats,
      (updateFirstMatching a f l).map (fun r => r.address) =
        l.map (fun r => r.address) := by
  intro l
  induction l with
  | nil => rfl
  | cons r rest ih =>
    by_cases hr : r.address = a
    · simp [updateFirstMatching, hr, hf]
    · simp [updateFirstMatching, hr, ih]

theorem length_updateFirstMatching (a : Nat)
    (f : MultiaddrWithStats → MultiaddrWithStats) :
    ∀ l : List MultiaddrWithStats,
      (updateFirstMatching a f l).length = l.length := by
  intro l
  induction l with
  | nil => rfl
  | cons r rest ih =>
    by_cases hr : r.address = a
    · simp [updateFirstMatching, hr]
    · simp [updateFirstMatching, hr, ih]

theorem mem_updateFirstMatching (a : Nat)
    (f : MultiaddrWithStats → MultiaddrWithStats) :
    ∀ (l : List MultiaddrWithStats) (x : MultiaddrWithStats),
      x ∈ updateFirstMatching a f l → x ∈ l ∨ ∃ y ∈ l, x = f y := by
  intro l
  induction l with
  | nil => intro x hx; simp [updateFirstMatching] at hx
  | cons r rest ih =>
    intro x hx
    by_cases hr : r.address = a
    · simp only [updateFirstMatching, if_pos hr, List.mem_cons] at hx
      rcases hx with rfl | hx
      · exact Or.inr ⟨r, by simp, rfl⟩
      · exact Or.inl (List.mem_cons.mpr (Or.inr hx))
    · simp only [updateFirstMatching, if_neg hr, List.mem_cons] at hx
      rcases hx with rfl | hx
      · exact Or.inl (by simp)
      · rcases ih x hx with h | ⟨y, hy, rfl⟩
        · exact Or.inl (List.mem_cons.mpr (Or.inr h))
        · exact Or.inr ⟨y, List.mem_cons.mpr (Or.inr hy), rfl⟩

theorem sorted_updateFirstMatching (a : Nat)
    (f : MultiaddrWithStats → MultiaddrWithStats)
    (hf : ∀ x r, MultiaddrWithStats.le x (f r) = MultiaddrWithStats.le x r ∧
      MultiaddrWithStats.le (f r) x = MultiaddrWithStats.le r x) :
    ∀ l : List MultiaddrWithStats, sortedByPriority l →
      sortedByPriority (updateFirstMatching a f l) := by
  intro l
  induction l with
  | nil => intro _; exact List.Pairwise.nil
  | cons r rest ih =>
    intro hs
    rcases List.pairwise_cons.mp hs with ⟨hhead, htail⟩
    by_cases hr : r.address = a
    · simp only [updateFirstMatching, if_pos hr]
      refine List.pairwise_cons.mpr ⟨?_, htail⟩
      intro b hb
      show MultiaddrWithStats.le (f r) b = true
      rw [(hf b r).2]
      exact hhead b hb
    · simp only [updateFirstMatching, if_neg hr]
      refine List.pairwise_cons.mpr ⟨?_, ih htail⟩
      intro b hb
      rcases mem_updateFirstMatching a f rest b hb with h | ⟨y, hy, rfl⟩
      · exact hhead b h
      · show MultiaddrWithStats.le r (f y) = true
        rw [(hf r y).1]
        exact hhead y hy

/-! Further generic helper lemmas. -/

theorem any_eq_isSome_find? {α : Type} (p : α → Bool) :
    ∀ l : List α, l.any p = (l.find? p).isSome := by
  intro l
  induction l with
  | nil => rfl
  | cons r rest ih =>
    by_cases h : p r
    · simp [List.any_cons, List.find?_cons, h]
    · simp [List.any_cons, List.find?_cons, h, ih]

theorem find?_address_append (a : Nat) :
    ∀ (pre : List MultiaddrWithStats) (r : MultiaddrWithStats)
      (post : List MultiaddrWithStats),
      (∀ x ∈ pre, x.address ≠ a) → r.address = a →
      (pre ++ r :: post).find? (fun x => x.address == a) = some r := by
  intro pre
  induction pre with
  | nil =>
    intro r post _ hr
    simp [List.find?_cons, hr]
  | cons x rest ih =>
    intro r post hpre hr
    have hx : x.address ≠ a := hpre x (by simp)
    have hxb : (x.address == a) = false := beq_eq_false_iff_ne.mpr hx
    simp only [List.cons_append, List.find?_cons, hxb]
    exact ih r post (fun y hy => hpre y (by simp [hy])) hr

theorem statsEq_refl (r : MultiaddrWithStats) : statsEq r r := by
  unfold statsEq
  exact ⟨rfl, rfl, rfl, rfl, rfl, rfl, rfl, rfl⟩

theorem statsEq_trans {r s t : MultiaddrWithStats} (h1 : statsEq r s) (h2 : statsEq s t) :
    statsEq r t := by
  unfold statsEq at h1 h2 ⊢
  obtain ⟨a1, a2, a3, a4, a5, a6, a7, a8⟩ := h1
  obtain ⟨b1, b2, b3, b4, b5, b6, b7, b8⟩ := h2
  exact ⟨a1.trans b1, a2.trans b2, a3.trans b3, a4.trans b4, a5.trans b5,
    a6.trans b6, a7.trans b7, a8.trans b8⟩

theorem statsEq_update_source (r : MultiaddrWithStats) (source : Nat) :
    statsEq (r.update_source_if_better source) r := by
  unfold statsEq MultiaddrWithStats.update_source_if_better
  exact ⟨rfl, rfl, rfl, rfl, rfl, rfl, rfl, rfl⟩

/-! Claim theorems. -/

/-- C9: the public indexing operation is partial: in the total embedding
it is the Option-returning list lookup, which is some exactly on indices
below len, returning the record at that position of the current order,
and none (the panic branch of the source) otherwise. -/
theorem index_partial_spec (m : MultiaddressesWithStats) (i : Nat) :
    ((m.index i).isSome = true ↔ i < m.len) ∧
    (∀ h : i < m.addresses.length, m.index i = some (m.addresses.get ⟨i, h⟩)) := by
  constructor
  · unfold MultiaddressesWithStats.index MultiaddressesWithStats.len
    simp only [Option.isSome_iff_ne_none, ne_eq, List.getElem?_eq_none_iff]
    omega
  · intro h
    unfold MultiaddressesWithStats.index
    simp [List.getElem?_eq_getElem h]

/-- Witness for C9 at a concrete registry of one record: index 0 is that
record and index 1 is none. -/
theorem index_partial_spec_witness :
    (MultiaddressesWithStats.new [freshRec]).index 0 = some freshRec ∧
    ((MultiaddressesWithStats.new [freshRec]).index 1).isSome = false := by
  constructor
  · exact (index_partial_spec (MultiaddressesWithStats.new [freshRec]) 0).2 (by decide)
  · have h := (index_partial_spec (MultiaddressesWithStats.new [freshRec]) 1).1
    refine Bool.eq_false_iff.mpr (fun hs => ?_)
    exact absurd (h.mp hs) (by decide)

/-- C2 counterexample: from_addresses_with_source does not deduplicate,
so on the input list with the same address twice the registry length is
2, not the number of distinct addresses (1), and the records are not
unique by address. -/
theorem from_addresses_duplicates_counterexample :
    (MultiaddressesWithStats.from_addresses_with_source [7, 7] 0).len = 2 ∧
    ([7, 7] : List Nat).dedup.length = 1 ∧
    ¬ uniqueByAddress
      (MultiaddressesWithStats.from_addresses_with_source [7, 7] 0).addresses := by
  refine ⟨by decide, by decide, by decide⟩

/-- C2 (amended): from_addresses_with_source builds exactly one record
per input element, in input order, so the registry length equals the
input length; the records are unique by address when the input list has
no duplicates. -/
theorem from_addresses_one_record_per_element (addrs : List Nat) (source : Nat) :
    (MultiaddressesWithStats.from_addresses_with_source addrs source).len = addrs.length ∧
    (MultiaddressesWithStats.from_addresses_with_source addrs source).addresses.map
      (fun r => r.address) = addrs ∧
    (addrs.Nodup →
      uniqueByAddress
        (MultiaddressesWithStats.from_addresses_with_source addrs source).addresses) := by
  have hmap :
      (MultiaddressesWithStats.from_addresses_with_source addrs source).addresses.map
        (fun r => r.address) = addrs := by
    unfold MultiaddressesWithStats.from_addresses_with_source
    induction addrs with
    | nil => rfl
    | cons x xs ih => simpa [MultiaddrWithStats.new] using ih
  refine ⟨?_, hmap, ?_⟩
  · unfold MultiaddressesWithStats.from_addresses_with_source MultiaddressesWithStats.len
    simp
  · intro h
    unfold uniqueByAddress
    rw [hmap]
    exact h

/-- Witness for C2 at a duplicate-free concrete input. -/
theorem from_addresses_one_record_per_element_witness :
    (MultiaddressesWithStats.from_addresses_with_source [1, 2] 0).len = 2 ∧
    uniqueByAddress
      (MultiaddressesWithStats.from_addresses_with_source [1, 2] 0).addresses :=
  ⟨(from_addresses_one_record_per_element [1, 2] 0).1,
   (from_addresses_one_record_per_element [1, 2] 0).2.2 (by decide)⟩

/-- C8: after reset_connection_attempts, the records are a permutation of
the per-record resets, every resulting record has connection_attempts = 0
and a cleared offline marker, and the per-record reset leaves last_seen,
last_attempted, the latency statistics, the address, the source and the
failure reason exactly as they were. -/
theorem reset_connection_attempts_spec (m : MultiaddressesWithStats) :
    List.Perm (m.reset_connection_attempts).addresses
      (m.addresses.map MultiaddrWithStats.reset_connection_attempts) ∧
    (∀ r ∈ (m.reset_connection_attempts).addresses,
      r.connection_attempts = 0 ∧ r.offline_at = none) ∧
    (∀ r : MultiaddrWithStats,
      (r.reset_connection_attempts).last_seen = r.last_seen ∧
      (r.reset_connection_attempts).last_attempted = r.last_attempted ∧
      (r.reset_connection_attempts).avg_latency = r.avg_latency ∧
      (r.reset_connection_attempts).latency_sample_count = r.latency_sample_count ∧
      (r.reset_connection_attempts).address = r.address ∧
      (r.reset_connection_attempts).source = r.source ∧
      (r.reset_connection_attempts).last_failure_reason = r.last_failure_reason) := by
  refine ⟨sortAddrs_perm _, ?_, ?_⟩
  · intro r hr
    have hr2 : r ∈ m.addresses.map MultiaddrWithStats.reset_connection_attempts :=
      (sortAddrs_perm _).mem_iff.mp hr
    rcases List.mem_map.mp hr2 with ⟨y, _, rfl⟩
    exact ⟨rfl, rfl⟩
  · intro r
    exact ⟨rfl, rfl, rfl, rfl, rfl, rfl, rfl⟩

/-- Witness for C8 at a concrete two-record registry. -/
theorem reset_connection_attempts_spec_witness :
    List.Perm
      ((MultiaddressesWithStats.new [failedRec, failedRec2]).reset_connection_attempts).addresses
      ([failedRec, failedRec2].map MultiaddrWithStats.reset_connection_attempts) ∧
    (failedRec.reset_connection_attempts.connection_attempts = 0 ∧
      failedRec.reset_connection_attempts.offline_at = none) ∧
    failedRec.reset_connection_attempts.last_seen = failedRec.last_seen :=
  ⟨(reset_connection_attempts_spec (MultiaddressesWithStats.new [failedRec, failedRec2])).1,
   (reset_connection_attempts_spec (MultiaddressesWithStats.new [failedRec, failedRec2])).2.1
     failedRec.reset_connection_attempts (by decide),
   ((reset_connection_attempts_spec
      (MultiaddressesWithStats.new [failedRec, failedRec2])).2.2 failedRec).1⟩

/-- C6: update_latency, mark_last_seen_now and mark_failed_connection_attempt
report whether the registry contains the address, and when they report
false the registry is returned completely unchanged; every latency sample
and every reason string is accepted (the operations are total in them). -/
theorem per_address_ops_found_iff_contains (m : MultiaddressesWithStats)
    (a sample now : Nat) (reason : String) :
    ((m.update_latency a sample).1 = m.contains a ∧
      ((m.update_latency a sample).1 = false → (m.update_latency a sample).2 = m)) ∧
    ((m.mark_last_seen_now a now).1 = m.contains a ∧
      ((m.mark_last_seen_now a now).1 = false → (m.mark_last_seen_now a now).2 = m)) ∧
    ((m.mark_failed_connection_attempt a reason now).1 = m.contains a ∧
      ((m.mark_failed_connection_attempt a reason now).1 = false →
        (m.mark_failed_connection_attempt a reason now).2 = m)) := by
  have hc : m.contains a = (m.addresses.find? (fun x => x.address == a)).isSome :=
    any_eq_isSome_find? _ m.addresses
  rcases hfind : m.addresses.find? (fun x => x.address == a) with _ | r
  · rw [hfind] at hc
    refine ⟨⟨?_, ?_⟩, ⟨?_, ?_⟩, ⟨?_, ?_⟩⟩ <;>
      simp [MultiaddressesWithStats.update_latency,
        MultiaddressesWithStats.mark_last_seen_now,
        MultiaddressesWithStats.mark_failed_connection_attempt, hfind, hc]
  · rw [hfind] at hc
    refine ⟨⟨?_, ?_⟩, ⟨?_, ?_⟩, ⟨?_, ?_⟩⟩ <;>
      simp [MultiaddressesWithStats.update_latency,
        MultiaddressesWithStats.mark_last_seen_now,
        MultiaddressesWithStats.mark_failed_connection_attempt, hfind, hc]

/-- Witness for C6: with the address present the operations report true;
with it absent they report false and return the registry unchanged, even
for a zero latency sample and an empty reason string. -/
theorem per_address_ops_found_iff_contains_witness :
    ((MultiaddressesWithStats.new [freshRec]).update_latency 20 0).1 =
      (MultiaddressesWithStats.new [freshRec]).contains 20 ∧
    ((MultiaddressesWithStats.new [freshRec]).mark_failed_connection_attempt 99 "" 4).1 =
      (MultiaddressesWithStats.new [freshRec]).contains 99 ∧
    ((MultiaddressesWithStats.new [freshRec]).mark_failed_connection_attempt 99 "" 4).2 =
      MultiaddressesWithStats.new [freshRec] :=
  ⟨((per_address_ops_found_iff_contains (MultiaddressesWithStats.new [freshRec]) 20 0 4 "").1).1,
   ((per_address_ops_found_iff_contains (MultiaddressesWithStats.new [freshRec]) 99 0 4 "").2.2).1,
   ((per_address_ops_found_iff_contains (MultiaddressesWithStats.new [freshRec]) 99 0 4 "").2.2).2
     (by decide)⟩

/-- C1 counterexample: merge is a mutating operation after which the
records need not be sorted.  Both input registries are sorted, unique by
address and address-disjoint, yet after merge the records are unsorted
and best returns the strictly worse record while a better one is in the
registry. -/
theorem merge_can_break_sort_counterexample :
    sortedByPriority (MultiaddressesWithStats.new [failedRec]).addresses ∧
    sortedByPriority (MultiaddressesWithStats.new [freshRec]).addresses ∧
    ¬ sortedByPriority
      ((MultiaddressesWithStats.new [failedRec]).merge
        (MultiaddressesWithStats.new [freshRec])).addresses ∧
    ((MultiaddressesWithStats.new [failedRec]).merge
      (MultiaddressesWithStats.new [freshRec])).best = some failedRec ∧
    freshRec ∈ ((MultiaddressesWithStats.new [failedRec]).merge
      (MultiaddressesWithStats.new [freshRec])).addresses ∧
    MultiaddrWithStats.le freshRec failedRec = true ∧
    MultiaddrWithStats.le failedRec freshRec = false := by
  refine ⟨by decide, by decide, by decide, by decide, by decide, by decide, by decide⟩

/-- C1 (amended): after add_address, update_addresses, update_latency,
mark_last_seen_now, mark_failed_connection_attempt and
reset_connection_attempts return, the records are sorted by the record
priority order (for add_address on an existing address this relies on the
records being sorted beforehand, as that branch does not re-sort but only
changes the provenance, which is not part of the sort key); best returns
the head record with no further pass, and on a sorted registry the head
is best with respect to the priority order.  merge is excluded: it does
not re-sort. -/
theorem mutating_ops_preserve_sort_except_merge (m : MultiaddressesWithStats)
    (a source sample now : Nat) (reason : String) (addrs : List Nat)
    (h : sortedByPriority m.addresses) :
    sortedByPriority (m.add_address a source).addresses ∧
    sortedByPriority (m.update_addresses addrs source).addresses ∧
    sortedByPriority (m.update_latency a sample).2.addresses ∧
    sortedByPriority (m.mark_last_seen_now a now).2.addresses ∧
    sortedByPriority (m.mark_failed_connection_attempt a reason now).2.addresses ∧
    sortedByPriority (m.reset_connection_attempts).addresses ∧
    m.best = m.addresses.head? ∧
    (∀ hd, m.best = some hd → ∀ r ∈ m.addresses, MultiaddrWithStats.le hd r = true) := by
  refine ⟨?_, sortAddrs_sorted _, ?_, ?_, ?_, sortAddrs_sorted _, rfl, ?_⟩
  · unfold MultiaddressesWithStats.add_address
    by_cases han : m.addresses.any (fun x => x.address == a) = true
    · rw [if_pos han]
      exact sorted_updateFirstMatching a (fun r => r.update_source_if_better source)
        (fun x r => ⟨rfl, rfl⟩) m.addresses h
    · rw [if_neg han]
      exact sortAddrs_sorted _
  · rcases hfind : m.addresses.find? (fun x => x.address == a) with _ | r <;>
      simp only [MultiaddressesWithStats.update_latency, hfind]
    · exact h
    · exact sortAddrs_sorted _
  · rcases hfind : m.addresses.find? (fun x => x.address == a) with _ | r <;>
      simp only [MultiaddressesWithStats.mark_last_seen_now, hfind]
    · exact h
    · exact sortAddrs_sorted _
  · rcases hfind : m.addresses.find? (fun x => x.address == a) with _ | r <;>
      simp only [MultiaddressesWithStats.mark_failed_connection_attempt, hfind]
    · exact h
    · exact sortAddrs_sorted _
  · intro hd hbest r hr
    rcases hm : m.addresses with _ | ⟨x, tail⟩
    · rw [hm] at hr
      exact absurd hr (List.not_mem_nil r)
    · have hbest2 : some x = some hd := by
        rw [MultiaddressesWithStats.best, hm] at hbest
        exact hbest
      have hx : x = hd := Option.some.inj hbest2
      rw [hm] at h hr
      subst hx
      rcases List.mem_cons.mp hr with rfl | hrt
      · exact record_le_refl r
      · exact (List.pairwise_cons.mp h).1 r hrt

/-- Witness for C1 (amended) at a concrete sorted two-record registry. -/
theorem mutating_ops_preserve_sort_except_merge_witness :
    sortedByPriority
      ((MultiaddressesWithStats.new [freshRec, failedRec]).add_address 10 1).addresses ∧
    sortedByPriority
      ((MultiaddressesWithStats.new [freshRec, failedRec]).update_addresses [7] 1).addresses ∧
    sortedByPriority
      ((MultiaddressesWithStats.new [freshRec, failedRec]).update_latency 10 3).2.addresses ∧
    sortedByPriority
      ((MultiaddressesWithStats.new [freshRec, failedRec]).mark_last_seen_now 10 4).2.addresses ∧
    sortedByPriority
      ((MultiaddressesWithStats.new [freshRec, failedRec]).mark_failed_connection_attempt
        10 "err" 4).2.addresses ∧
    sortedByPriority
      ((MultiaddressesWithStats.new [freshRec, failedRec]).reset_connection_attempts).addresses ∧
    (MultiaddressesWithStats.new [freshRec, failedRec]).best =
      (MultiaddressesWithStats.new [freshRec, failedRec]).addresses.head? ∧
    (∀ hd, (MultiaddressesWithStats.new [freshRec, failedRec]).best = some hd →
      ∀ r ∈ (MultiaddressesWithStats.new [freshRec, failedRec]).addresses,
        MultiaddrWithStats.le hd r = true) :=
  mutating_ops_preserve_sort_except_merge
    (MultiaddressesWithStats.new [freshRec, failedRec]) 10 1 3 4 "err" [7] (by decide)

/-! Helper lemmas for add_address. -/

theorem contains_iff_exists (m : MultiaddressesWithStats) (a : Nat) :
    m.contains a = true ↔ ∃ r ∈ m.addresses, r.address = a := by
  unfold MultiaddressesWithStats.contains
  simp [List.any_eq_true]

theorem contains_eq_false_iff (m : MultiaddressesWithStats) (a : Nat) :
    m.contains a = false ↔ a ∉ m.addresses.map (fun r => r.address) := by
  rw [← Bool.not_eq_true, contains_iff_exists]
  simp [List.mem_map, eq_comm]

theorem add_address_contains_map (m : MultiaddressesWithStats) (a source : Nat)
    (h : m.contains a = true) :
    (m.add_address a source).addresses.map (fun r => r.address) =
      m.addresses.map (fun r => r.address) := by
  have h2 : (m.addresses.any fun x => x.address == a) = true := h
  unfold MultiaddressesWithStats.add_address
  rw [if_pos h2]
  exact map_address_updateFirstMatching a (fun r => r.update_source_if_better source)
    (fun r => rfl) m.addresses

theorem add_address_not_contains_perm (m : MultiaddressesWithStats) (a source : Nat)
    (h : m.contains a = false) :
    List.Perm (m.add_address a source).addresses
      (m.addresses ++ [MultiaddrWithStats.new a source]) := by
  have hfalse : (m.addresses.any fun x => x.address == a) = false := h
  have hnot : ¬ ((m.addresses.any fun x => x.address == a) = true) := by
    simp [hfalse]
  unfold MultiaddressesWithStats.add_address
  rw [if_neg hnot]
  exact sortAddrs_perm _

theorem add_address_unique (m : MultiaddressesWithStats) (a source : Nat)
    (h : uniqueByAddress m.addresses) :
    uniqueByAddress (m.add_address a source).addresses := by
  by_cases hc : m.contains a = true
  · unfold uniqueByAddress
    rw [add_address_contains_map m a source hc]
    exact h
  · have hc2 : m.contains a = false := by
      simp only [Bool.not_eq_true] at hc
      exact hc
    have hp := (add_address_not_contains_perm m a source hc2).map (fun r => r.address)
    unfold uniqueByAddress
    rw [hp.nodup_iff, List.map_append]
    refine List.Nodup.append h (by simp) ?_
    intro x hx hy
    have hxa : x = a := by
      simpa [MultiaddrWithStats.new] using hy
    subst hxa
    exact absurd hx ((contains_eq_false_iff m x).mp hc2)

theorem fold_add_address_len (source : Nat) :
    ∀ (l : List Nat) (m : MultiaddressesWithStats), uniqueByAddress m.addresses →
      (l.foldl (fun acc x => acc.add_address x source) m).len =
        ((m.addresses.map (fun r => r.address)) ++ l).dedup.length := by
  intro l
  induction l with
  | nil =>
    intro m h
    rw [List.foldl_nil, List.append_nil, List.Nodup.dedup h]
    simp [MultiaddressesWithStats.len]
  | cons x rest ih =>
    intro m h
    rw [List.foldl_cons]
    rw [ih (m.add_address x source) (add_address_unique m x source h)]
    by_cases hc : m.contains x = true
    · rw [add_address_contains_map m x source hc]
      have hx : x ∈ m.addresses.map (fun r => r.address) := by
        rcases (contains_iff_exists m x).mp hc with ⟨r, hr, hra⟩
        exact List.mem_map.mpr ⟨r, hr, hra⟩
      calc (m.addresses.map (fun r => r.address) ++ rest).dedup.length
          = (x :: (m.addresses.map (fun r => r.address) ++ rest)).dedup.length := by
            rw [List.dedup_cons_of_mem (List.mem_append_left rest hx)]
        _ = (m.addresses.map (fun r => r.address) ++ x :: rest).dedup.length :=
            ((List.Perm.dedup List.perm_middle).length_eq).symm
    · have hc2 : m.contains x = false := by
        simp only [Bool.not_eq_true] at hc
        exact hc
      have hp := (add_address_not_contains_perm m x source hc2).map (fun r => r.address)
      have hp2 := hp.append_right rest
      rw [(hp2.dedup).length_eq, List.map_append, List.append_assoc]
      simp [MultiaddrWithStats.new]

/-- C7: add_address on an already present address never changes the
address sequence (hence never grows the registry); on a new address it
appends a fresh record (up to the re-sort permutation); and starting from
a registry unique by address, any sequence of add_address calls leaves
the length equal to the number of distinct addresses involved. -/
theorem add_address_idempotent_spec (m : MultiaddressesWithStats) (a source : Nat)
    (l : List Nat) :
    (m.contains a = true → (m.add_address a source).len = m.len) ∧
    (m.contains a = true →
      (m.add_address a source).addresses.map (fun r => r.address) =
        m.addresses.map (fun r => r.address)) ∧
    (m.contains a = false →
      List.Perm (m.add_address a source).addresses
        (m.addresses ++ [MultiaddrWithStats.new a source])) ∧
    (uniqueByAddress m.addresses →
      (l.foldl (fun acc x => acc.add_address x source) m).len =
        ((m.addresses.map (fun r => r.address)) ++ l).dedup.length) := by
  refine ⟨?_, fun h => add_address_contains_map m a source h,
    fun h => add_address_not_contains_perm m a source h,
    fun h => fold_add_address_len source l m h⟩
  intro h
  have h2 := congrArg List.length (add_address_contains_map m a source h)
  simpa [MultiaddressesWithStats.len] using h2

/-- Witness for C7: re-adding a present address keeps the length; a new
address is appended; adding the list 10, 10, 20 to the empty registry
yields length 2. -/
theorem add_address_idempotent_spec_witness :
    ((MultiaddressesWithStats.new [freshRec]).add_address 20 1).len =
      (MultiaddressesWithStats.new [freshRec]).len ∧
    List.Perm ((MultiaddressesWithStats.new [freshRec]).add_address 10 0).addresses
      ([freshRec] ++ [MultiaddrWithStats.new 10 0]) ∧
    (([10, 10, 20] : List Nat).foldl
      (fun acc x => acc.add_address x 0) MultiaddressesWithStats.empty).len = 2 := by
  refine ⟨(add_address_idempotent_spec (MultiaddressesWithStats.new [freshRec]) 20 1 []).1
      (by decide),
    (add_address_idempotent_spec (MultiaddressesWithStats.new [freshRec]) 10 0 []).2.2.1
      (by decide), ?_⟩
  have h := (add_address_idempotent_spec MultiaddressesWithStats.empty 0 0
    [10, 10, 20]).2.2.2 (by decide)
  rw [h]
  decide

/-- C10: the raw constructors new and the From conversion perform no
deduplication, keeping the record vector exactly as given (so duplicate
addresses can coexist); and in any registry the per-address operations
update_latency, mark_last_seen_now, mark_failed_connection_attempt and
the provenance upgrade of add_address mutate only the first record whose
address matches, leaving any later record with the same address (in post)
unchanged. -/
theorem raw_constructors_no_dedup_first_match
    (l pre post : List MultiaddrWithStats) (r : MultiaddrWithStats)
    (a sample source now : Nat) (reason : String)
    (hpre : ∀ x ∈ pre, x.address ≠ a) (hr : r.address = a) :
    (MultiaddressesWithStats.new l).addresses = l ∧
    (MultiaddressesWithStats.ofVec l).addresses = l ∧
    List.Perm
      ((MultiaddressesWithStats.new (pre ++ r :: post)).update_latency a sample).2.addresses
      (pre ++ r.update_latency sample :: post) ∧
    List.Perm
      ((MultiaddressesWithStats.new (pre ++ r :: post)).mark_last_seen_now a now).2.addresses
      (pre ++ { r.mark_last_seen_now now with last_attempted := some now } :: post) ∧
    List.Perm
      ((MultiaddressesWithStats.new (pre ++ r :: post)).mark_failed_connection_attempt
        a reason now).2.addresses
      (pre ++ { r.mark_failed_connection_attempt reason now with
        last_attempted := some now } :: post) ∧
    ((MultiaddressesWithStats.new (pre ++ r :: post)).add_address a source).addresses =
      pre ++ r.update_source_if_better source :: post := by
  have hfind := find?_address_append a pre r post hpre hr
  have hany : ((pre ++ r :: post).any (fun x => x.address == a)) = true := by
    rw [any_eq_isSome_find? _ (pre ++ r :: post), hfind]
    rfl
  refine ⟨rfl, rfl, ?_, ?_, ?_, ?_⟩
  · simp only [MultiaddressesWithStats.update_latency, MultiaddressesWithStats.new, hfind]
    rw [updateFirstMatching_append a _ pre r post hpre hr]
    exact sortAddrs_perm _
  · simp only [MultiaddressesWithStats.mark_last_seen_now, MultiaddressesWithStats.new, hfind]
    rw [updateFirstMatching_append a _ pre r post hpre hr]
    exact sortAddrs_perm _
  · simp only [MultiaddressesWithStats.mark_failed_connection_attempt,
      MultiaddressesWithStats.new, hfind]
    rw [updateFirstMatching_append a _ pre r post hpre hr]
    exact sortAddrs_perm _
  · simp only [MultiaddressesWithStats.add_address, MultiaddressesWithStats.new, hany,
      if_true]
    exact updateFirstMatching_append a _ pre r post hpre hr

/-- Witness for C10 at a registry that holds the address 10 twice: the
first matching record is upgraded and the later duplicate (dupRec) stays
untouched. -/
theorem raw_constructors_no_dedup_first_match_witness :
    (MultiaddressesWithStats.new [failedRec, dupRec]).addresses = [failedRec, dupRec] ∧
    ((MultiaddressesWithStats.new ([freshRec] ++ failedRec :: [dupRec])).add_address
      10 3).addresses = [freshRec] ++ failedRec.update_source_if_better 3 :: [dupRec] ∧
    List.Perm
      ((MultiaddressesWithStats.new ([freshRec] ++ failedRec :: [dupRec])).update_latency
        10 8).2.addresses
      ([freshRec] ++ failedRec.update_latency 8 :: [dupRec]) :=
  ⟨(raw_constructors_no_dedup_first_match [failedRec, dupRec] [freshRec] [dupRec]
      failedRec 10 8 3 4 "err" (by decide) (by decide)).1,
   (raw_constructors_no_dedup_first_match [failedRec, dupRec] [freshRec] [dupRec]
      failedRec 10 8 3 4 "err" (by decide) (by decide)).2.2.2.2.2,
   (raw_constructors_no_dedup_first_match [failedRec, dupRec] [freshRec] [dupRec]
      failedRec 10 8 3 4 "err" (by decide) (by decide)).2.2.1⟩

/-! Helper lemmas for the offline_at aggregation. -/

theorem offlineAtAux_isSome_iff :
    ∀ (l : List MultiaddrWithStats) (acc : Option Nat),
      ((MultiaddressesWithStats.offlineAtAux l acc).isSome = true ↔
        ((∀ r ∈ l, r.offline_at.isSome = true) ∧ (acc.isSome = true ∨ l ≠ []))) := by
  intro l
  induction l with
  | nil =>
    intro acc
    simp [MultiaddressesWithStats.offlineAtAux]
  | cons r rest ih =>
    intro acc
    cases hr : r.offline_at with
    | none =>
      simp [MultiaddressesWithStats.offlineAtAux, hr]
    | some v =>
      rcases acc with _ | e
      · simp only [MultiaddressesWithStats.offlineAtAux, hr]
        rw [ih (some v)]
        simp [hr, List.forall_mem_cons]
      · simp only [MultiaddressesWithStats.offlineAtAux, hr]
        rw [ih (if v < e then some v else some e)]
        have hsome : ((if v < e then some v else some e) : Option Nat).isSome = true := by
          split <;> rfl
        simp [hr, hsome, List.forall_mem_cons]

theorem offlineAtAux_min :
    ∀ (l : List MultiaddrWithStats) (acc : Option Nat) (t : Nat),
      MultiaddressesWithStats.offlineAtAux l acc = some t →
        ((∃ r ∈ l, r.offline_at = some t) ∨ acc = some t) ∧
        (∀ r ∈ l, ∀ u, r.offline_at = some u → t ≤ u) ∧
        (∀ u, acc = some u → t ≤ u) := by
  intro l
  induction l with
  | nil =>
    intro acc t h
    simp only [MultiaddressesWithStats.offlineAtAux] at h
    refine ⟨Or.inr h, by simp, ?_⟩
    intro u hu
    rw [h] at hu
    exact le_of_eq (Option.some.inj hu)
  | cons r rest ih =>
    intro acc t h
    cases hr : r.offline_at with
    | none =>
      simp only [MultiaddressesWithStats.offlineAtAux, hr] at h
      exact Option.noConfusion h
    | some v =>
      rcases acc with _ | e
      · simp only [MultiaddressesWithStats.offlineAtAux, hr] at h
        obtain ⟨hex, hmin, hacc⟩ := ih (some v) t h
        have htv : t ≤ v := hacc v rfl
        refine ⟨?_, ?_, by simp⟩
        · rcases hex with ⟨s, hs, hst⟩ | hvt
          · exact Or.inl ⟨s, by simp [hs], hst⟩
          · have hv : v = t := Option.some.inj hvt
            exact Or.inl ⟨r, by simp, by rw [hr, hv]⟩
        · intro s hs u hu
          rcases List.mem_cons.mp hs with rfl | hs2
          · rw [hr] at hu
            have hvu : v = u := Option.some.inj hu
            omega
          · exact hmin s hs2 u hu
      · simp only [MultiaddressesWithStats.offlineAtAux, hr] at h
        obtain ⟨hex, hmin, hacc⟩ := ih (if v < e then some v else some e) t h
        have hte : t ≤ e ∧ t ≤ v := by
          by_cases hve : v < e
          · have h1 := hacc v (by rw [if_pos hve])
            constructor <;> omega
          · have h1 := hacc e (by rw [if_neg hve])
            constructor <;> omega
        refine ⟨?_, ?_, ?_⟩
        · rcases hex with ⟨s, hs, hst⟩ | hit
          · exact Or.inl ⟨s, by simp [hs], hst⟩
          · by_cases hve : v < e
            · rw [if_pos hve] at hit
              have hv : v = t := Option.some.inj hit
              exact Or.inl ⟨r, by simp, by rw [hr, hv]⟩
            · rw [if_neg hve] at hit
              exact Or.inr hit
        · intro s hs u hu
          rcases List.mem_cons.mp hs with rfl | hs2
          · rw [hr] at hu
            have hvu : v = u := Option.some.inj hu
            omega
          · exact hmin s hs2 u hu
        · intro u hu
          have heu : e = u := Option.some.inj hu
          omega

/-- C3: offline_at is some exactly when the registry is non-empty and
every record is in a failure streak (given the record invariant that the
offline marker is set exactly when connection_attempts is positive), and
the returned value is the earliest per-record offline-streak start time;
it is none when the registry is empty or any record has no streak. -/
theorem offline_at_iff_all_in_failure_streak (m : MultiaddressesWithStats)
    (hinv : ∀ r ∈ m.addresses, (r.offline_at.isSome = true ↔ 0 < r.connection_attempts)) :
    ((m.offline_at).isSome = true ↔
      (m.addresses ≠ [] ∧ ∀ r ∈ m.addresses, 0 < r.connection_attempts)) ∧
    (∀ t, m.offline_at = some t →
      (∃ r ∈ m.addresses, r.offline_at = some t) ∧
      (∀ r ∈ m.addresses, ∀ u, r.offline_at = some u → t ≤ u)) := by
  constructor
  · rw [MultiaddressesWithStats.offline_at, offlineAtAux_isSome_iff m.addresses none]
    constructor
    · rintro ⟨hall, hne⟩
      rcases hne with h | h
      · simp at h
      · exact ⟨h, fun r hr => (hinv r hr).mp (hall r hr)⟩
    · rintro ⟨hne, hall⟩
      exact ⟨fun r hr => (hinv r hr).mpr (hall r hr), Or.inr hne⟩
  · intro t ht
    rw [MultiaddressesWithStats.offline_at] at ht
    obtain ⟨hex, hmin, _⟩ := offlineAtAux_min m.addresses none t ht
    refine ⟨?_, hmin⟩
    rcases hex with h | h
    · exact h
    · exact absurd h (by simp)

/-- Witness for C3 at a concrete registry whose two records are both in a
failure streak starting at times 5 and 3: offline_at is some 3, a record
realises it, and 3 is a lower bound of all streak starts. -/
theorem offline_at_iff_all_in_failure_streak_witness :
    ((MultiaddressesWithStats.new [failedRec, failedRec2]).offline_at).isSome = true ∧
    (MultiaddressesWithStats.new [failedRec, failedRec2]).offline_at = some 3 ∧
    (∃ r ∈ (MultiaddressesWithStats.new [failedRec, failedRec2]).addresses,
      r.offline_at = some 3) ∧
    (∀ r ∈ (MultiaddressesWithStats.new [failedRec, failedRec2]).addresses,
      ∀ u, r.offline_at = some u → 3 ≤ u) := by
  have h := offline_at_iff_all_in_failure_streak
    (MultiaddressesWithStats.new [failedRec, failedRec2]) (by decide)
  refine ⟨h.1.mpr ⟨by decide, by decide⟩, by decide, (h.2 3 (by decide)).1, (h.2 3 (by decide)).2⟩

/-! Helper lemmas for update_addresses. -/

theorem forall₂_comp {α : Type} {R S T : α → α → Prop}
    (h : ∀ a b c, R a b → S b c → T a c) :
    ∀ {l1 l2 l3 : List α}, List.Forall₂ R l1 l2 → List.Forall₂ S l2 l3 →
      List.Forall₂ T l1 l3 := by
  intro l1 l2 l3 h12
  induction h12 generalizing l3 with
  | nil =>
    intro h23
    cases h23
    exact List.Forall₂.nil
  | cons hab htail ih =>
    intro h23
    cases h23 with
    | cons hbc h23tail => exact List.Forall₂.cons (h _ _ _ hab hbc) (ih h23tail)

theorem step_forall₂ (a source : Nat) :
    ∀ l : List MultiaddrWithStats,
      List.Forall₂ (fun old cur => cur = old ∨
          (old.address = a ∧ cur = old.update_source_if_better source)) l
        (updateFirstMatching a (fun r => r.update_source_if_better source) l) := by
  intro l
  induction l with
  | nil => exact List.Forall₂.nil
  | cons r rest ih =>
    by_cases hr : r.address = a
    · simp only [updateFirstMatching, if_pos hr]
      exact List.Forall₂.cons (Or.inr ⟨hr, rfl⟩)
        (List.forall₂_same.mpr (fun x _ => Or.inl rfl))
    · simp only [updateFirstMatching, if_neg hr]
      exact List.Forall₂.cons (Or.inl rfl) ih

theorem upgradeExisting_forall₂ (source : Nat) :
    ∀ (addrs : List Nat) (l : List MultiaddrWithStats),
      List.Forall₂ (fun old cur => statsEq cur old ∧ (old.address ∉ addrs → cur = old))
        l (MultiaddressesWithStats.upgradeExisting addrs source l) := by
  intro addrs
  induction addrs with
  | nil =>
    intro l
    exact List.forall₂_same.mpr (fun x _ => ⟨statsEq_refl x, fun _ => rfl⟩)
  | cons a rest ih =>
    intro l
    have h1 := step_forall₂ a source l
    have h2 := ih (updateFirstMatching a (fun r => r.update_source_if_better source) l)
    refine forall₂_comp ?_ h1 h2
    intro old mid cur hR hS
    obtain ⟨hstats, hrest⟩ := hS
    constructor
    · rcases hR with rfl | ⟨ha, rfl⟩
      · exact hstats
      · exact statsEq_trans hstats (statsEq_update_source old source)
    · intro hnot
      have hna : old.address ≠ a := fun he => hnot (by simp [he])
      have hnr : old.address ∉ rest := fun he => hnot (by simp [he])
      rcases hR with rfl | ⟨ha, hmid⟩
      · exact hrest hnr
      · exact absurd ha hna

theorem upgradeExisting_map_address (source : Nat) :
    ∀ (addrs : List Nat) (l : List MultiaddrWithStats),
      (MultiaddressesWithStats.upgradeExisting addrs source l).map (fun r => r.address) =
        l.map (fun r => r.address) := by
  intro addrs
  induction addrs with
  | nil => intro l; rfl
  | cons a rest ih =>
    intro l
    show (MultiaddressesWithStats.upgradeExisting rest source
      (updateFirstMatching a (fun r => r.update_source_if_better source) l)).map
        (fun r => r.address) = _
    rw [ih (updateFirstMatching a (fun r => r.update_source_if_better source) l)]
    exact map_address_updateFirstMatching a
      (fun r => r.update_source_if_better source) (fun r => rfl) l

/-- C4: update_addresses leaves the statistics of every pre-existing
record unchanged and its provenance unchanged unless its address is in
the incoming list (expressed positionally by Forall₂ over the provenance
upgrade pass); the resulting records are, up to the final re-sort
permutation, the upgraded pre-existing records followed by one fresh
record per incoming address not yet contained; hence no record is removed
and the length grows by exactly the number of genuinely new incoming
addresses. -/
theorem update_addresses_preserves_stats (m : MultiaddressesWithStats)
    (addrs : List Nat) (source : Nat) :
    List.Forall₂ (fun old cur => statsEq cur old ∧ (old.address ∉ addrs → cur = old))
      m.addresses (MultiaddressesWithStats.upgradeExisting addrs source m.addresses) ∧
    List.Perm (m.update_addresses addrs source).addresses
      (MultiaddressesWithStats.upgradeExisting addrs source m.addresses ++
        (addrs.filter (fun x => !(m.contains x))).map
          (fun x => MultiaddrWithStats.new x source)) ∧
    (m.update_addresses addrs source).len =
      m.len + (addrs.filter (fun x => !(m.contains x))).length := by
  have hf2 := upgradeExisting_forall₂ source addrs m.addresses
  have hany : ∀ (L : List MultiaddrWithStats) (x : Nat),
      (L.any fun r => r.address == x) = ((L.map (fun r => r.address)).any fun y => y == x) := by
    intro L x
    induction L with
    | nil => rfl
    | cons r rest ih => simp [List.any_cons, ih]
  have hfilter :
      (addrs.filter fun x => !((MultiaddressesWithStats.upgradeExisting addrs source
        m.addresses).any fun r => r.address == x)) =
      (addrs.filter fun x => !(m.contains x)) := by
    apply List.filter_congr
    intro x _
    rw [hany, upgradeExisting_map_address source addrs m.addresses, ← hany]
    rfl
  have hperm2 : List.Perm (m.update_addresses addrs source).addresses
      (MultiaddressesWithStats.upgradeExisting addrs source m.addresses ++
        (addrs.filter (fun x => !(m.contains x))).map
          (fun x => MultiaddrWithStats.new x source)) := by
    have hperm0 : List.Perm (m.update_addresses addrs source).addresses
        (MultiaddressesWithStats.upgradeExisting addrs source m.addresses ++
          (addrs.filter fun x => !((MultiaddressesWithStats.upgradeExisting addrs source
            m.addresses).any fun r => r.address == x)).map
              (fun x => MultiaddrWithStats.new x source)) := sortAddrs_perm _
    rw [hfilter] at hperm0
    exact hperm0
  refine ⟨hf2, hperm2, ?_⟩
  have hl := hperm2.length_eq
  show (m.update_addresses addrs source).addresses.length = m.addresses.length + _
  rw [hl, List.length_append, List.length_map, ← hf2.length_eq]

/-- Witness for C4: adding one known and one new address to a concrete
two-record registry grows it by exactly one. -/
theorem update_addresses_preserves_stats_witness :
    ((MultiaddressesWithStats.new [freshRec, failedRec]).update_addresses [20, 99] 2).len = 3 := by
  have h := (update_addresses_preserves_stats
    (MultiaddressesWithStats.new [freshRec, failedRec]) [20, 99] 2).2.2
  rw [h]
  decide

/-! Helper lemmas for merge. -/

theorem optMax_self (o : Option Nat) : MultiaddrWithStats.optMax o o = o := by
  cases o <;> simp [MultiaddrWithStats.optMax]

theorem record_merge_self (r : MultiaddrWithStats) : r.merge r = r := by
  cases r
  simp [MultiaddrWithStats.merge, optMax_self]

theorem updateFirstMatching_id_of (a : Nat)
    (f : MultiaddrWithStats → MultiaddrWithStats) :
    ∀ l : List MultiaddrWithStats, (∀ x ∈ l, x.address = a → f x = x) →
      updateFirstMatching a f l = l := by
  intro l
  induction l with
  | nil => intro _; rfl
  | cons r rest ih =>
    intro h
    by_cases hr : r.address = a
    · simp only [updateFirstMatching, if_pos hr, h r (by simp) hr]
    · simp only [updateFirstMatching, if_neg hr]
      rw [ih (fun x hx ha => h x (by simp [hx]) ha)]

theorem merge_fold_self (L : List MultiaddrWithStats) (hL : uniqueByAddress L) :
    ∀ l : List MultiaddrWithStats, (∀ x ∈ l, x ∈ L) →
      l.foldl (fun recs addr =>
        if recs.any (fun x => x.address == addr.address) then
          updateFirstMatching addr.address (fun e => e.merge addr) recs
        else recs ++ [addr]) L = L := by
  intro l
  induction l with
  | nil => intro _; rfl
  | cons s rest ih =>
    intro h
    have hs : s ∈ L := h s (by simp)
    have hany2 : (L.any fun x => x.address == s.address) = true := by
      rw [List.any_eq_true]
      exact ⟨s, hs, by simp⟩
    rw [List.foldl_cons, if_pos hany2,
      updateFirstMatching_id_of s.address (fun e => e.merge s) L ?_]
    · exact ih (fun x hx => h x (by simp [hx]))
    · intro x hx hxa
      have hxs : x = s := List.inj_on_of_nodup_map hL hx hs hxa
      subst hxs
      exact record_merge_self x

theorem merge_fold_disjoint :
    ∀ (l acc : List MultiaddrWithStats),
      (∀ s ∈ l, (acc.any fun x => x.address == s.address) = false) →
      (l.map (fun r => r.address)).Nodup →
      l.foldl (fun recs addr =>
        if recs.any (fun x => x.address == addr.address) then
          updateFirstMatching addr.address (fun e => e.merge addr) recs
        else recs ++ [addr]) acc = acc ++ l := by
  intro l
  induction l with
  | nil => intro acc _ _; simp
  | cons s rest ih =>
    intro acc h hnodup
    have hfalse : (acc.any fun x => x.address == s.address) = false := h s (by simp)
    have hnot : ¬ ((acc.any fun x => x.address == s.address) = true) := by simp [hfalse]
    rw [List.foldl_cons, if_neg hnot]
    have hrest : ∀ s2 ∈ rest, ((acc ++ [s]).any fun x => x.address == s2.address) = false := by
      intro s2 hs2
      rw [List.any_append]
      have h1 : (acc.any fun x => x.address == s2.address) = false := h s2 (by simp [hs2])
      have h2 : ([s].any fun x => x.address == s2.address) = false := by
        simp only [List.any_cons, List.any_nil, Bool.or_false]
        have hne : s.address ≠ s2.address := by
          intro he
          rw [List.map_cons, List.nodup_cons] at hnodup
          exact hnodup.1 (he ▸ List.mem_map.mpr ⟨s2, hs2, rfl⟩)
        exact beq_eq_false_iff_ne.mpr hne
      rw [h1, h2]
      rfl
    rw [ih (acc ++ [s]) hrest
      (by rw [List.map_cons, List.nodup_cons] at hnodup; exact hnodup.2)]
    rw [List.append_assoc]
    rfl

/-- C5: merge is information-preserving: merging a registry (unique by
address, the data-model invariant) with an identical copy of itself
yields no change at all; merging two registries with disjoint address
sets appends the records of the other registry verbatim, so the result is
exactly the union with every record keeping its original statistics. -/
theorem merge_information_preserving :
    (∀ m : MultiaddressesWithStats, uniqueByAddress m.addresses → m.merge m = m) ∧
    (∀ m other : MultiaddressesWithStats,
      (∀ r ∈ m.addresses, ∀ s ∈ other.addresses, r.address ≠ s.address) →
      uniqueByAddress other.addresses →
      (m.merge other).addresses = m.addresses ++ other.addresses) := by
  constructor
  · intro m h
    rcases m with ⟨l⟩
    exact congrArg MultiaddressesWithStats.mk (merge_fold_self l h l (fun x hx => hx))
  · intro m other hdisj huniq
    show other.addresses.foldl _ m.addresses = _
    apply merge_fold_disjoint
    · intro s hs
      rw [List.any_eq_false]
      intro x hx
      simp only [beq_iff_eq]
      exact hdisj x hx s hs
    · exact huniq

/-- Witness for C5: a concrete self-merge is the identity, and a concrete
disjoint merge is the concatenation of the records. -/
theorem merge_information_preserving_witness :
    (MultiaddressesWithStats.new [freshRec, failedRec]).merge
      (MultiaddressesWithStats.new [freshRec, failedRec]) =
      MultiaddressesWithStats.new [freshRec, failedRec] ∧
    ((MultiaddressesWithStats.new [freshRec]).merge
      (MultiaddressesWithStats.new [failedRec2])).addresses = [freshRec] ++ [failedRec2] :=
  ⟨merge_information_preserving.1 (MultiaddressesWithStats.new [freshRec, failedRec])
    (by decide),
   merge_information_preserving.2 (MultiaddressesWithStats.new [freshRec])
    (MultiaddressesWithStats.new [failedRec2]) (by decide) (by decide)⟩

end Tari
